import Mathlib

/-!
Verification development for the Eventor event-orchestration engine:
a shallow embedding of the draft engine, roster manager and score
aggregator handlers found in the repository's React pages, together
with theorems about the claims of the specification.

Conventions of the embedding:
* Firestore documents become Lean structures; document-id plumbing and
  purely presentational fields (createdAt, participantEmails, ...) that
  no handler logic reads are left out.
* A Firestore transaction or batch becomes a pure function from the
  fresh snapshots it reads to `Except err outcome`: an `.error` result
  models a thrown error (nothing committed), an `.ok` result carries
  every write of the transaction at once (atomic commit).
* `serverTimestamp()` becomes an explicit `now : Nat` argument.
* JavaScript string statuses and roles stay `String`s, matching the
  literals of the source.
-/

namespace Eventor

/-- Draft document, after `interface DraftData` of the draft page. -/
structure DraftData where
  status : String
  pickOrder : List String
  currentPickIndex : Nat
  roundNumber : Nat
  totalPicksMade : Nat
  lastPickTimestamp : Nat
deriving Repr, DecidableEq

/-- Event document, after `interface EventData` of the manage page
(fields no handler reads are omitted). -/
structure EventData where
  status : String
  adminId : String
  numberOfTeams : Nat
  participantIds : List String
  availableForDraftIds : List String
deriving Repr, DecidableEq

/-- Team document, after `interface TeamData`. -/
structure TeamData where
  id : String
  name : String
  captainId : String
  memberIds : List String
deriving Repr, DecidableEq

/-- Firestore `arrayUnion(x)` applied to a list field: appends the
element if it is not already present. -/
def arrayUnion (l : List String) (x : String) : List String :=
  if x ∈ l then l else l ++ [x]

/-- Firestore `arrayRemove(x)`: removes every occurrence of `x`. -/
def arrayRemove (l : List String) (x : String) : List String :=
  l.filter (fun y => y ≠ x)

/-! ## Draft engine: `handlePickPlayer` (draft page)

The transaction body of `handlePickPlayer`: it reads fresh snapshots of
the draft, event and picking-team documents, validates, and commits all
its writes at once.  `requestingTeamId` is `currentPickingTeam.id` of
the caller, `teamsCount` is `teams.size` of the page-level team map
the completion check consults, `now` stands for `serverTimestamp()`. -/

/-- One error per throw site of the `handlePickPlayer` transaction. -/
inductive PickError where
  | missingData
  | draftNotActive
  | notYourTurn
  | playerUnavailable
deriving Repr, DecidableEq

/-- The write set committed by a successful `handlePickPlayer`
transaction: the updated draft and event documents, the picked player's
new `teamId` and the picking team's new `memberIds`. -/
structure PickOutcome where
  draft : DraftData
  event : EventData
  playerTeamId : String
  teamMemberIds : List String
deriving Repr, DecidableEq

/-- The `runTransaction` body of `handlePickPlayer`. -/
def handlePickPlayer (draftSnap : Option DraftData) (eventSnap : Option EventData)
    (teamSnap : Option TeamData) (requestingTeamId playerId : String)
    (teamsCount : Nat) (now : Nat) : Except PickError PickOutcome :=
  match draftSnap, eventSnap, teamSnap with
  | some d, some e, some t =>
    if d.status ≠ "active" then .error .draftNotActive
    else if d.pickOrder[d.currentPickIndex]? ≠ some requestingTeamId then
      .error .notYourTurn
    else if playerId ∉ e.availableForDraftIds then .error .playerUnavailable
    else
      let nextPickIndex := (d.currentPickIndex + 1) % d.pickOrder.length
      let nextRoundNumber :=
        if nextPickIndex = 0 then d.roundNumber + 1 else d.roundNumber
      let nextTotalPicksMade := d.totalPicksMade + 1
      let remainingDraftablePlayers := e.availableForDraftIds.length - 1
      let draftIsCompleting := remainingDraftablePlayers ≤ teamsCount
      let nextDraftStatus := if draftIsCompleting then "completed" else "active"
      let nextEventStatus := if draftIsCompleting then "active" else "drafting"
      .ok
        { draft :=
            { d with
              currentPickIndex := nextPickIndex
              roundNumber := nextRoundNumber
              totalPicksMade := nextTotalPicksMade
              status := nextDraftStatus
              lastPickTimestamp := now }
          event :=
            { e with
              availableForDraftIds := arrayRemove e.availableForDraftIds playerId
              status := nextEventStatus }
          playerTeamId := requestingTeamId
          teamMemberIds := arrayUnion t.memberIds playerId }
  | _, _, _ => .error .missingData

/-- The per-call data of one `handlePickPlayer` invocation: the fresh
team snapshot, the caller's `currentPickingTeam.id` and chosen player,
the cached team-map size and the timestamp. -/
structure PickReq where
  team : TeamData
  requestingTeamId : String
  playerId : String
  teamsCount : Nat
  now : Nat
deriving Repr, DecidableEq

/-- One `pickPlayer` call acting on the current draft and event
documents. -/
def pickStep (s : DraftData × EventData) (r : PickReq) :
    Except PickError (DraftData × EventData) :=
  match handlePickPlayer (some s.1) (some s.2) (some r.team) r.requestingTeamId
      r.playerId r.teamsCount r.now with
  | .error e => .error e
  | .ok out => .ok (out.draft, out.event)

/-- A sequence of `pickPlayer` calls, each required to succeed. -/
def applyPicks : DraftData × EventData → List PickReq →
    Except PickError (DraftData × EventData)
  | s, [] => .ok s
  | s, r :: rs =>
    match pickStep s r with
    | .error e => .error e
    | .ok s' => applyPicks s' rs

/-! ## Draft engine: `shuffleArray` and `handleStartDraft` (manage page) -/

/-- Swap the entries at positions `i` and `j`
(`[array[i], array[j]] = [array[j], array[i]]`); out-of-range indices
leave the list unchanged. -/
def listSwap {α : Type} (l : List α) (i j : Nat) : List α :=
  match l.get? i, l.get? j with
  | some x, some y => (l.set i y).set j x
  | _, _ => l

/-- The loop of `shuffleArray`, counting `i` down to 1; `draws i` is the
value of `Math.floor(Math.random() * (i + 1))` drawn at step `i`. -/
def shuffleAux {α : Type} (draws : Nat → Nat) : Nat → List α → List α
  | 0, l => l
  | i + 1, l => shuffleAux draws i (listSwap l (i + 1) (draws (i + 1)))

/-- `shuffleArray` of `handleStartDraft`: for `i` from `n-1` down to 1,
swap positions `i` and `draws i`. -/
def shuffleArray {α : Type} (draws : Nat → Nat) (l : List α) : List α :=
  shuffleAux draws (l.length - 1) l

/-- One error per early return / throw site of `handleStartDraft`. -/
inductive StartError where
  | permissionDenied
  | capacityMismatch
  | invalidStatusClient
  | noPlayersAvailable
  | eventMissing
  | invalidStatusFresh
deriving Repr, DecidableEq

/-- The write set of a successful `handleStartDraft`: the created draft
document and the updated event document. -/
structure StartOutcome where
  draft : DraftData
  event : EventData
deriving Repr, DecidableEq

/-- `handleStartDraft` of the manage page: client-side guards, then the
transaction that re-checks the fresh event status, creates the draft
document and moves the event to `drafting`.  `eventData`/`teams` are
the page's cached state, `freshEvent` the snapshot read inside the
transaction. -/
def handleStartDraft (currentUserId : String) (eventData : EventData)
    (teams : List TeamData) (freshEvent : Option EventData)
    (draws : Nat → Nat) (now : Nat) : Except StartError StartOutcome :=
  if currentUserId ≠ eventData.adminId then .error .permissionDenied
  else if teams.length ≠ eventData.numberOfTeams then .error .capacityMismatch
  else if eventData.status ∈ ["drafting", "active", "completed"] then
    .error .invalidStatusClient
  else if eventData.availableForDraftIds.length = 0 then .error .noPlayersAvailable
  else
    let teamIds := teams.map (fun team => team.id)
    let randomizedPickOrder := shuffleArray draws teamIds
    match freshEvent with
    | none => .error .eventMissing
    | some fe =>
      if fe.status ∉ ["setup", "inviting", "assigningCaptains"] then
        .error .invalidStatusFresh
      else
        .ok
          { draft :=
              { status := "active"
                pickOrder := randomizedPickOrder
                currentPickIndex := 0
                roundNumber := 1
                totalPicksMade := 0
                lastPickTimestamp := now }
            event := { fe with status := "drafting" } }

/-! ## Roster manager: `handleMakeCaptain` (manage page) -/

/-- One error per early return of `handleMakeCaptain`. -/
inductive CaptainError where
  | permissionDenied
  | capacityExceeded
  | alreadyAssigned
deriving Repr, DecidableEq

/-- The write set of a successful `handleMakeCaptain` batch. -/
structure CaptainOutcome where
  newTeam : TeamData
  userRole : String
  userTeamId : String
  event : EventData
deriving Repr, DecidableEq

/-- Value of the digit characters `cs` read in base 10. -/
def digitsVal (cs : List Char) : Nat :=
  cs.foldl (fun a c => a * 10 + (c.toNat - 48)) 0

/-- `parseInt(name.match(/\d+$/)?.[0] || "0", 10)`: the number formed
by the trailing digits of `s`, or 0 when `s` does not end in a digit. -/
def trailingNumber (s : String) : Nat :=
  digitsVal ((s.toList.reverse.takeWhile Char.isDigit).reverse)

/-- `handleMakeCaptain`: promote `participant` to captain of a freshly
created team.  `newTeamId` stands for the generated `newTeamRef.id`. -/
def handleMakeCaptain (currentUserId : String) (eventData : EventData)
    (teams : List TeamData) (participantUid participantRole : String)
    (newTeamId : String) : Except CaptainError CaptainOutcome :=
  if currentUserId ≠ eventData.adminId then .error .permissionDenied
  else if eventData.numberOfTeams ≤ teams.length then .error .capacityExceeded
  else if participantRole ≠ "participant" then .error .alreadyAssigned
  else
    let existingTeamNumbers := teams.map (fun t => trailingNumber t.name)
    let nextTeamNumber := existingTeamNumbers.foldl max 0 + 1
    .ok
      { newTeam :=
          { id := newTeamId
            name := "Team " ++ toString nextTeamNumber
            captainId := participantUid
            memberIds := [participantUid] }
        userRole := "captain"
        userTeamId := newTeamId
        event :=
          { eventData with
            availableForDraftIds :=
              eventData.availableForDraftIds.filter (fun id => id ≠ participantUid) } }

/-! ## Invitations: `handleAccept` (invitations page) -/

/-- One error per throw site / early return of `handleAccept`. -/
inductive AcceptError where
  | alreadyInEvent
  | eventMissing
deriving Repr, DecidableEq

/-- The write set of a successful `handleAccept` transaction. -/
structure AcceptOutcome where
  inviteStatus : String
  event : EventData
  userCurrentEventId : Option String
  userTeamId : Option String
deriving Repr, DecidableEq

/-- `handleAccept` of the invitations page: marks the invite accepted,
adds the user to `participantIds` and `availableForDraftIds`, and
points the user at the event, in one transaction. -/
def handleAccept (currentUserId : String) (currentEventId : Option String)
    (freshEvent : Option EventData) (inviteEventId : String) :
    Except AcceptError AcceptOutcome :=
  if currentEventId.isSome then .error .alreadyInEvent
  else
    match freshEvent with
    | none => .error .eventMissing
    | some fe =>
      .ok
        { inviteStatus := "accepted"
          event :=
            { fe with
              participantIds := arrayUnion fe.participantIds currentUserId
              availableForDraftIds := arrayUnion fe.availableForDraftIds currentUserId }
          userCurrentEventId := some inviteEventId
          userTeamId := none }

/-! ## Score aggregator: `handleSubmitScores` (sub-event page) -/

/-- Sub-event document (the fields `handleSubmitScores` reads). -/
structure SubEventData where
  name : String
  status : String
deriving Repr, DecidableEq

/-- One score-input row of the admin form: a team id and the raw text
of the points field. -/
structure ScoreInput where
  teamId : String
  points : String
deriving Repr, DecidableEq

/-- A document of the `scores` collection as written by the batch. -/
structure ScoreRec where
  eventId : String
  subEventId : String
  teamId : String
  points : Int
  assignedBy : String
  assignedAt : Nat
  subEventName : String
  teamName : String
deriving Repr, DecidableEq

/-- One error per early return / throw site of `handleSubmitScores`. -/
inductive SubmitError where
  | permissionDenied
  | subEventCompleted
  | validationError (teamId : String)
  | noScoresEntered
deriving Repr, DecidableEq

/-- The write set of a successful `handleSubmitScores` batch: the
`scores` collection after the appends, the new sub-event status, and
the records the batch created. -/
structure SubmitOutcome where
  store : List ScoreRec
  subEventStatus : String
  newRecords : List ScoreRec
deriving Repr, DecidableEq

/-- `String.prototype.trim`: strip leading and trailing whitespace
(written over the character list so that proofs can evaluate it). -/
def trimJS (s : String) : String :=
  String.mk (((s.data.dropWhile Char.isWhitespace).reverse.dropWhile
    Char.isWhitespace).reverse)

/-- `parseInt(s, 10)` on an already-trimmed string: optional sign, then
the longest leading digit run; `none` models `NaN`. -/
def parseIntJS (s : String) : Option Int :=
  let signAndRest : Int × List Char :=
    match s.toList with
    | '-' :: r => (-1, r)
    | '+' :: r => (1, r)
    | r => (1, r)
  let ds := signAndRest.2.takeWhile Char.isDigit
  if ds.isEmpty then none else some (signAndRest.1 * (digitsVal ds : Int))

/-- `teamName` convenience field: the name of the team with id `tid`
among `allEventTeams`, or `"Unknown Team"`. -/
def lookupTeamName (allEventTeams : List TeamData) (tid : String) : String :=
  match allEventTeams.find? (fun t => t.id == tid) with
  | some t => t.name
  | none => "Unknown Team"

/-- The `scores.forEach` loop of `handleSubmitScores`: skip empty
inputs, abort the whole submission on the first non-integer input,
otherwise stage one fresh score document per non-empty input. -/
def buildScoreRecs (eventId subEventId uid : String) (subEventName : String)
    (allEventTeams : List TeamData) (now : Nat) :
    List ScoreInput → Except SubmitError (List ScoreRec)
  | [] => .ok []
  | si :: rest =>
    let pointsStr := trimJS si.points
    if pointsStr = "" then
      buildScoreRecs eventId subEventId uid subEventName allEventTeams now rest
    else
      match parseIntJS pointsStr with
      | none => .error (.validationError si.teamId)
      | some points =>
        match buildScoreRecs eventId subEventId uid subEventName allEventTeams now rest with
        | .error e => .error e
        | .ok recs =>
          .ok
            ({ eventId := eventId
               subEventId := subEventId
               teamId := si.teamId
               points := points
               assignedBy := uid
               assignedAt := now
               subEventName := subEventName
               teamName := lookupTeamName allEventTeams si.teamId } :: recs)

/-- `handleSubmitScores` of the sub-event page: admin-only, rejected up
front when the sub-event is already completed; every non-empty input
creates a new score document, and the same batch marks the sub-event
completed. -/
def handleSubmitScores (role : String) (subEvent : SubEventData)
    (entries : List ScoreInput) (store : List ScoreRec)
    (allEventTeams : List TeamData) (eventId subEventId uid : String)
    (now : Nat) : Except SubmitError SubmitOutcome :=
  if role ≠ "admin" then .error .permissionDenied
  else if subEvent.status = "completed" then .error .subEventCompleted
  else
    match buildScoreRecs eventId subEventId uid subEvent.name allEventTeams now entries with
    | .error e => .error e
    | .ok recs =>
      if recs.length = 0 then .error .noScoresEntered
      else
        .ok
          { store := store ++ recs
            subEventStatus := "completed"
            newRecords := recs }

/-! ## Score aggregator: `leaderboardData` (leaderboard page) -/

/-- One row of the computed leaderboard. -/
structure LeaderboardEntry where
  teamId : String
  teamName : String
  totalPoints : Int
  scoresBreakdown : List (String × Int)
deriving Repr, DecidableEq

/-- The entry a team starts from: zero points, empty breakdown. -/
def initEntry (t : TeamData) : LeaderboardEntry :=
  { teamId := t.id, teamName := t.name, totalPoints := 0, scoresBreakdown := [] }

/-- `aggregatedScores[team.id] = ...` on a JavaScript object: replace
the entry with that key if present (keeping its position), else append. -/
def upsertEntry : List LeaderboardEntry → LeaderboardEntry → List LeaderboardEntry
  | [], e => [e]
  | x :: xs, e =>
    if x.teamId = e.teamId then e :: xs else x :: upsertEntry xs e

/-- The `scores.forEach` body: add the score's points (and a breakdown
row) to the entry of its team; scores of unknown teams are dropped. -/
def addScore : List LeaderboardEntry → ScoreRec → List LeaderboardEntry
  | [], _ => []
  | x :: xs, s =>
    if x.teamId = s.teamId then
      { x with
        totalPoints := x.totalPoints + s.points
        scoresBreakdown := x.scoresBreakdown ++ [(s.subEventName, s.points)] } :: xs
    else x :: addScore xs s

/-- Stable insertion of `e` into a list already sorted by points
descending: `e` goes before the first entry it strictly beats. -/
def insertByPoints (e : LeaderboardEntry) : List LeaderboardEntry → List LeaderboardEntry
  | [] => [e]
  | x :: xs =>
    if x.totalPoints < e.totalPoints then e :: x :: xs else x :: insertByPoints e xs

/-- `Array.prototype.sort` with comparator
`(a, b) => b.totalPoints - a.totalPoints`: a stable sort by total
points descending (the ECMAScript spec requires sort stability, so the
stable insertion sort is extensionally the source's sort). -/
def sortByPointsDesc (l : List LeaderboardEntry) : List LeaderboardEntry :=
  l.foldl (fun acc e => insertByPoints e acc) []

/-- `leaderboardData` of the leaderboard page: one entry per fetched
team, points summed from the event's score documents, sorted by total
points descending. -/
def leaderboardData (teams : List TeamData) (scores : List ScoreRec) :
    List LeaderboardEntry :=
  let initial := teams.foldl (fun acc t => upsertEntry acc (initEntry t)) []
  let aggregated := scores.foldl addScore initial
  sortByPointsDesc aggregated

/-! ## Helper lemmas about `handlePickPlayer` -/

/-- A successful pick implies the three validations held, and
determines the committed write set field by field. -/
theorem handlePickPlayer_ok_inv {d : DraftData} {e : EventData} {t : TeamData}
    {rq pid : String} {tc now : Nat} {out : PickOutcome}
    (h : handlePickPlayer (some d) (some e) (some t) rq pid tc now = .ok out) :
    d.status = "active" ∧
    d.pickOrder[d.currentPickIndex]? = some rq ∧
    pid ∈ e.availableForDraftIds ∧
    out =
      { draft :=
          { d with
            currentPickIndex := (d.currentPickIndex + 1) % d.pickOrder.length
            roundNumber :=
              if (d.currentPickIndex + 1) % d.pickOrder.length = 0 then
                d.roundNumber + 1
              else d.roundNumber
            totalPicksMade := d.totalPicksMade + 1
            status :=
              if e.availableForDraftIds.length - 1 ≤ tc then "completed" else "active"
            lastPickTimestamp := now }
        event :=
          { e with
            availableForDraftIds := arrayRemove e.availableForDraftIds pid
            status :=
              if e.availableForDraftIds.length - 1 ≤ tc then "active" else "drafting" }
        playerTeamId := rq
        teamMemberIds := arrayUnion t.memberIds pid } := by
  simp only [handlePickPlayer] at h
  split at h
  · exact absurd h (by simp)
  · split at h
    · exact absurd h (by simp)
    · split at h
      · exact absurd h (by simp)
      · rename_i h1 h2 h3
        exact ⟨not_ne_iff.mp h1, not_ne_iff.mp h2, not_not.mp h3,
          (Except.ok.inj h).symm⟩

/-- When the three validations hold, the pick succeeds. -/
theorem handlePickPlayer_ok_of_valid {d : DraftData} {e : EventData} {t : TeamData}
    {rq pid : String} {tc now : Nat}
    (h1 : d.status = "active")
    (h2 : d.pickOrder[d.currentPickIndex]? = some rq)
    (h3 : pid ∈ e.availableForDraftIds) :
    handlePickPlayer (some d) (some e) (some t) rq pid tc now =
      .ok
        { draft :=
            { d with
              currentPickIndex := (d.currentPickIndex + 1) % d.pickOrder.length
              roundNumber :=
                if (d.currentPickIndex + 1) % d.pickOrder.length = 0 then
                  d.roundNumber + 1
                else d.roundNumber
              totalPicksMade := d.totalPicksMade + 1
              status :=
                if e.availableForDraftIds.length - 1 ≤ tc then "completed" else "active"
              lastPickTimestamp := now }
          event :=
            { e with
              availableForDraftIds := arrayRemove e.availableForDraftIds pid
              status :=
                if e.availableForDraftIds.length - 1 ≤ tc then "active" else "drafting" }
          playerTeamId := rq
          teamMemberIds := arrayUnion t.memberIds pid } := by
  simp only [handlePickPlayer]
  rw [if_neg (by simp [h1]), if_neg (by simp [h2]), if_neg (by simp [h3])]

/-- `arrayRemove` unfolded one element at a time. -/
theorem arrayRemove_cons (a x : String) (t : List String) :
    arrayRemove (a :: t) x =
      if a = x then arrayRemove t x else a :: arrayRemove t x := by
  rcases eq_or_ne a x with rfl | h
  · simp [arrayRemove, List.filter_cons]
  · simp [arrayRemove, List.filter_cons, h]

/-- `arrayRemove` of an absent element changes nothing. -/
theorem arrayRemove_of_not_mem {l : List String} {x : String} (h : x ∉ l) :
    arrayRemove l x = l :=
  List.filter_eq_self.mpr fun b hb => by
    simp only [decide_eq_true_eq]
    rintro rfl
    exact h hb

/-- Removing a member of a duplicate-free list shrinks it by one. -/
theorem length_arrayRemove_of_nodup {l : List String} {x : String}
    (hnd : l.Nodup) (hx : x ∈ l) :
    (arrayRemove l x).length = l.length - 1 := by
  induction l with
  | nil => cases hx
  | cons a t ih =>
    rcases List.nodup_cons.mp hnd with ⟨hat, hndt⟩
    rw [arrayRemove_cons]
    rcases eq_or_ne a x with rfl | hax
    · rw [if_pos rfl, arrayRemove_of_not_mem hat]
      simp
    · have hxt : x ∈ t := by
        rcases List.mem_cons.mp hx with h | h
        · exact absurd h.symm hax
        · exact h
      have ht1 : 1 ≤ t.length := List.length_pos.mpr (List.ne_nil_of_mem hxt)
      have h' := ih hndt hxt
      rw [if_neg hax]
      simp only [List.length_cons, h']
      omega

/-! ## Sample documents shared by the witnesses -/

/-- A two-team draft about to make its first pick. -/
def sampleDraft : DraftData :=
  { status := "active", pickOrder := ["T1", "T2"], currentPickIndex := 0,
    roundNumber := 1, totalPicksMade := 0, lastPickTimestamp := 0 }

/-- The matching event: two captains hold teams, three players remain. -/
def sampleEvent : EventData :=
  { status := "drafting", adminId := "admin1", numberOfTeams := 2,
    participantIds := ["c1", "c2", "p1", "p2", "p3"],
    availableForDraftIds := ["p1", "p2", "p3"] }

/-- The team whose turn it is. -/
def sampleTeam : TeamData :=
  { id := "T1", name := "Team 1", captainId := "c1", memberIds := ["c1"] }

/-- The write set `handlePickPlayer` commits when `T1` picks `p1` in the
sample state at time 5: pool drops to two, which completes the draft. -/
def samplePickOutcome : PickOutcome :=
  { draft :=
      { status := "completed", pickOrder := ["T1", "T2"], currentPickIndex := 1,
        roundNumber := 1, totalPicksMade := 1, lastPickTimestamp := 5 }
    event :=
      { status := "active", adminId := "admin1", numberOfTeams := 2,
        participantIds := ["c1", "c2", "p1", "p2", "p3"],
        availableForDraftIds := ["p2", "p3"] }
    playerTeamId := "T1"
    teamMemberIds := ["c1", "p1"] }

/-! ## C1: the `pickPlayer` transaction contract -/

/-- **C1**: `pickPlayer` validates, against the fresh snapshots read in
the transaction that performs the writes, that the draft is active,
that `pickOrder[currentPickIndex]` is the requesting team, and that the
player is still in `availableForDraftIds`; each failed check (and a
missing document) yields its own typed error with nothing committed,
and a success commits every effect — index advance, round/total
counters, pool removal, team membership, player `teamId`, timestamp —
in the one atomic write set. -/
theorem pickPlayer_transaction_contract
    (dS : Option DraftData) (eS : Option EventData) (tS : Option TeamData)
    (d : DraftData) (e : EventData) (t : TeamData)
    (rq pid : String) (tc now : Nat) :
    (dS = none ∨ eS = none ∨ tS = none →
      handlePickPlayer dS eS tS rq pid tc now = .error .missingData) ∧
    (d.status ≠ "active" →
      handlePickPlayer (some d) (some e) (some t) rq pid tc now =
        .error .draftNotActive) ∧
    (d.status = "active" → d.pickOrder[d.currentPickIndex]? ≠ some rq →
      handlePickPlayer (some d) (some e) (some t) rq pid tc now =
        .error .notYourTurn) ∧
    (d.status = "active" → d.pickOrder[d.currentPickIndex]? = some rq →
      pid ∉ e.availableForDraftIds →
      handlePickPlayer (some d) (some e) (some t) rq pid tc now =
        .error .playerUnavailable) ∧
    (∀ out, handlePickPlayer (some d) (some e) (some t) rq pid tc now = .ok out →
      d.status = "active" ∧
      d.pickOrder[d.currentPickIndex]? = some rq ∧
      pid ∈ e.availableForDraftIds ∧
      out.draft.currentPickIndex = (d.currentPickIndex + 1) % d.pickOrder.length ∧
      out.draft.roundNumber =
        (if (d.currentPickIndex + 1) % d.pickOrder.length = 0 then
          d.roundNumber + 1 else d.roundNumber) ∧
      out.draft.totalPicksMade = d.totalPicksMade + 1 ∧
      out.draft.lastPickTimestamp = now ∧
      out.event.availableForDraftIds = arrayRemove e.availableForDraftIds pid ∧
      out.teamMemberIds = arrayUnion t.memberIds pid ∧
      out.playerTeamId = rq) ∧
    (d.status = "active" → d.pickOrder[d.currentPickIndex]? = some rq →
      pid ∈ e.availableForDraftIds →
      (handlePickPlayer (some d) (some e) (some t) rq pid tc now).isOk = true) := by
  refine ⟨?_, ?_, ?_, ?_, ?_, ?_⟩
  · intro h
    rcases dS with _ | dv <;> rcases eS with _ | ev <;> rcases tS with _ | tv <;>
      first
        | rfl
        | (rcases h with h | h | h <;> simp at h)
  · intro h1
    simp only [handlePickPlayer]
    rw [if_pos h1]
  · intro h1 h2
    simp only [handlePickPlayer]
    rw [if_neg (not_ne_iff.mpr h1), if_pos h2]
  · intro h1 h2 h3
    simp only [handlePickPlayer]
    rw [if_neg (not_ne_iff.mpr h1), if_neg (not_ne_iff.mpr h2), if_pos h3]
  · intro out h
    obtain ⟨h1, h2, h3, ho⟩ := handlePickPlayer_ok_inv h
    subst ho
    exact ⟨h1, h2, h3, rfl, rfl, rfl, rfl, rfl, rfl, rfl⟩
  · intro h1 h2 h3
    rw [handlePickPlayer_ok_of_valid h1 h2 h3]
    rfl

/-- Witness for C1: in the sample state the valid pick succeeds and the
out-of-turn pick fails with `notYourTurn`. -/
theorem pickPlayer_transaction_contract_witness :
    (handlePickPlayer (some sampleDraft) (some sampleEvent) (some sampleTeam)
      "T1" "p1" 2 5).isOk = true ∧
    handlePickPlayer (some sampleDraft) (some sampleEvent) (some sampleTeam)
      "T2" "p1" 2 5 = .error .notYourTurn :=
  ⟨(pickPlayer_transaction_contract (some sampleDraft) (some sampleEvent)
      (some sampleTeam) sampleDraft sampleEvent sampleTeam "T1" "p1" 2 5).2.2.2.2.2
      (by decide) (by decide) (by decide),
   (pickPlayer_transaction_contract (some sampleDraft) (some sampleEvent)
      (some sampleTeam) sampleDraft sampleEvent sampleTeam "T2" "p1" 2 5).2.2.1
      (by decide) (by decide)⟩

/-! ## C3: the draft-completion rule -/

/-- **C3**: a successful pick completes the draft (and moves the event
to its post-draft `active` state) exactly when the pool left after
removing the picked player has at most `numberOfTeams` entries;
otherwise the draft stays `active` and the event stays `drafting`.
`tc = e.numberOfTeams` renders the source's completion threshold — the
size of the page's team map, which holds exactly the event's
`numberOfTeams` teams once a draft exists — and the pool is duplicate
free, as a set-valued field. -/
theorem pickPlayer_completion_rule
    (d : DraftData) (e : EventData) (t : TeamData) (rq pid : String)
    (tc now : Nat) (out : PickOutcome)
    (hok : handlePickPlayer (some d) (some e) (some t) rq pid tc now = .ok out)
    (hnd : e.availableForDraftIds.Nodup)
    (htc : tc = e.numberOfTeams) :
    ((arrayRemove e.availableForDraftIds pid).length ≤ e.numberOfTeams →
      out.draft.status = "completed" ∧ out.event.status = "active") ∧
    (e.numberOfTeams < (arrayRemove e.availableForDraftIds pid).length →
      out.draft.status = "active" ∧ out.event.status = "drafting") := by
  obtain ⟨h1, h2, h3, ho⟩ := handlePickPlayer_ok_inv hok
  subst ho htc
  have he : (arrayRemove e.availableForDraftIds pid).length =
      e.availableForDraftIds.length - 1 := length_arrayRemove_of_nodup hnd h3
  constructor
  · intro hle
    rw [he] at hle
    dsimp only
    rw [if_pos hle, if_pos hle]
    exact ⟨rfl, rfl⟩
  · intro hlt
    rw [he] at hlt
    have hn : ¬(e.availableForDraftIds.length - 1 ≤ e.numberOfTeams) := by omega
    dsimp only
    rw [if_neg hn, if_neg hn]
    exact ⟨rfl, rfl⟩

/-- Witness for C3: picking `p1` from the three-player sample pool
leaves two players with two teams, so that pick completes the draft. -/
theorem pickPlayer_completion_rule_witness :
    ((arrayRemove sampleEvent.availableForDraftIds "p1").length ≤
        sampleEvent.numberOfTeams →
      samplePickOutcome.draft.status = "completed" ∧
      samplePickOutcome.event.status = "active") ∧
    (sampleEvent.numberOfTeams <
        (arrayRemove sampleEvent.availableForDraftIds "p1").length →
      samplePickOutcome.draft.status = "active" ∧
      samplePickOutcome.event.status = "drafting") :=
  pickPlayer_completion_rule sampleDraft sampleEvent sampleTeam "T1" "p1" 2 5
    samplePickOutcome (by rfl) (by decide) (by decide)

/-! ## Helper lemmas about membership in the Firestore array ops -/

/-- Membership in an `arrayUnion` result. -/
theorem mem_arrayUnion_iff {l : List String} {x y : String} :
    y ∈ arrayUnion l x ↔ y ∈ l ∨ y = x := by
  unfold arrayUnion
  split
  · rename_i hx
    constructor
    · exact Or.inl
    · rintro (h | rfl)
      · exact h
      · exact hx
  · simp

/-- `arrayUnion` is monotone with respect to list inclusion. -/
theorem arrayUnion_subset_arrayUnion {l m : List String} {x : String}
    (h : l ⊆ m) : arrayUnion l x ⊆ arrayUnion m x := by
  intro y hy
  rcases mem_arrayUnion_iff.mp hy with hl | rfl
  · exact mem_arrayUnion_iff.mpr (Or.inl (h hl))
  · exact mem_arrayUnion_iff.mpr (Or.inr rfl)

/-- `arrayRemove` only drops elements. -/
theorem arrayRemove_subset (l : List String) (x : String) :
    arrayRemove l x ⊆ l :=
  List.filter_subset' l

/-! ## Helper inversion lemmas for the roster and score handlers -/

/-- A successful `handleMakeCaptain` implies its three guards passed
and determines the committed batch. -/
theorem handleMakeCaptain_ok_inv {cu : String} {e : EventData}
    {teams : List TeamData} {uid role newTeamId : String} {out : CaptainOutcome}
    (h : handleMakeCaptain cu e teams uid role newTeamId = .ok out) :
    cu = e.adminId ∧ teams.length < e.numberOfTeams ∧ role = "participant" ∧
    out =
      { newTeam :=
          { id := newTeamId
            name := "Team " ++
              toString ((teams.map (fun t => trailingNumber t.name)).foldl max 0 + 1)
            captainId := uid
            memberIds := [uid] }
        userRole := "captain"
        userTeamId := newTeamId
        event :=
          { e with
            availableForDraftIds :=
              e.availableForDraftIds.filter (fun id => id ≠ uid) } } := by
  simp only [handleMakeCaptain] at h
  split at h
  · exact absurd h (by simp)
  · split at h
    · exact absurd h (by simp)
    · split at h
      · exact absurd h (by simp)
      · rename_i h1 h2 h3
        exact ⟨not_ne_iff.mp h1, Nat.not_le.mp h2, not_ne_iff.mp h3,
          (Except.ok.inj h).symm⟩

/-- A successful `handleAccept` implies the user was free and
determines the committed transaction. -/
theorem handleAccept_ok_inv {u : String} {ce : Option String}
    {fe : EventData} {iev : String} {out : AcceptOutcome}
    (h : handleAccept u ce (some fe) iev = .ok out) :
    ce = none ∧
    out =
      { inviteStatus := "accepted"
        event :=
          { fe with
            participantIds := arrayUnion fe.participantIds u
            availableForDraftIds := arrayUnion fe.availableForDraftIds u }
        userCurrentEventId := some iev
        userTeamId := none } := by
  simp only [handleAccept] at h
  split at h
  · exact absurd h (by simp)
  · rename_i h1
    exact ⟨Option.not_isSome_iff_eq_none.mp (by simpa using h1),
      (Except.ok.inj h).symm⟩

/-- A successful `handleSubmitScores` implies the admin and
completed-status guards passed, at least one score was staged, and the
whole batch — appended records plus the sub-event completion — is
committed at once. -/
theorem handleSubmitScores_ok_inv {role : String} {se : SubEventData}
    {entries : List ScoreInput} {store : List ScoreRec}
    {teams : List TeamData} {eid sid uid : String} {now : Nat}
    {out : SubmitOutcome}
    (h : handleSubmitScores role se entries store teams eid sid uid now = .ok out) :
    role = "admin" ∧ se.status ≠ "completed" ∧
    ∃ recs, buildScoreRecs eid sid uid se.name teams now entries = .ok recs ∧
      recs ≠ [] ∧
      out =
        { store := store ++ recs
          subEventStatus := "completed"
          newRecords := recs } := by
  simp only [handleSubmitScores] at h
  split at h
  · exact absurd h (by simp)
  · split at h
    · exact absurd h (by simp)
    · rename_i h1 h2
      split at h
      · exact absurd h (by simp)
      · rename_i recs hrecs
        split at h
        · exact absurd h (by simp)
        · rename_i hlen
          refine ⟨not_ne_iff.mp h1, h2, recs, hrecs, ?_, (Except.ok.inj h).symm⟩
          intro hnil
          exact hlen (by simp [hnil])

/-! ## C8: captain assignment -/

/-- **C8**: an admin call of `assignCaptain` on a `participant` while
the team count is below `numberOfTeams` commits, in one batch, a new
team named by the next unused ordinal (`Team <max existing ordinal+1>`,
gap tolerant) with the participant as sole member and captain, the
role/`teamId` update, and the removal of the participant from the draft
pool; a non-`participant` target or a call at capacity fails with no
effect. -/
theorem makeCaptain_contract (cu : String) (e : EventData)
    (teams : List TeamData) (uid role newTeamId : String) :
    (cu = e.adminId → role = "participant" → teams.length < e.numberOfTeams →
      handleMakeCaptain cu e teams uid role newTeamId =
        .ok
          { newTeam :=
              { id := newTeamId
                name := "Team " ++
                  toString ((teams.map (fun t => trailingNumber t.name)).foldl max 0 + 1)
                captainId := uid
                memberIds := [uid] }
            userRole := "captain"
            userTeamId := newTeamId
            event :=
              { e with
                availableForDraftIds :=
                  e.availableForDraftIds.filter (fun x => x ≠ uid) } }) ∧
    (cu = e.adminId → role ≠ "participant" →
      (handleMakeCaptain cu e teams uid role newTeamId).isOk = false) ∧
    (cu = e.adminId → e.numberOfTeams ≤ teams.length →
      handleMakeCaptain cu e teams uid role newTeamId =
        .error .capacityExceeded) := by
  refine ⟨?_, ?_, ?_⟩
  · intro h1 h2 h3
    simp only [handleMakeCaptain]
    rw [if_neg (not_ne_iff.mpr h1), if_neg (Nat.not_le.mpr h3),
      if_neg (not_ne_iff.mpr h2)]
  · intro h1 h2
    simp only [handleMakeCaptain]
    rw [if_neg (not_ne_iff.mpr h1)]
    by_cases hcap : e.numberOfTeams ≤ teams.length
    · rw [if_pos hcap]
      rfl
    · rw [if_neg hcap, if_pos h2]
      rfl
  · intro h1 h2
    simp only [handleMakeCaptain]
    rw [if_neg (not_ne_iff.mpr h1), if_pos h2]

/-- Witness for C8: promoting `p2` beside the existing `Team 1` creates
`Team 2`, and promoting the captain-roled `c1` fails. -/
theorem makeCaptain_contract_witness :
    handleMakeCaptain "admin1" sampleEvent [sampleTeam] "p2" "participant" "T9" =
      .ok
        { newTeam :=
            { id := "T9", name := "Team " ++ toString (trailingNumber "Team 1" + 1)
              captainId := "p2", memberIds := ["p2"] }
          userRole := "captain"
          userTeamId := "T9"
          event :=
            { sampleEvent with
              availableForDraftIds :=
                sampleEvent.availableForDraftIds.filter (fun x => x ≠ "p2") } } ∧
    (handleMakeCaptain "admin1" sampleEvent [sampleTeam] "c1" "captain" "T9").isOk
      = false :=
  ⟨(makeCaptain_contract "admin1" sampleEvent [sampleTeam] "p2" "participant"
      "T9").1 (by decide) (by decide) (by decide),
   (makeCaptain_contract "admin1" sampleEvent [sampleTeam] "c1" "captain"
      "T9").2.1 (by decide) (by decide)⟩

/-! ## C9: the draft pool stays inside the participant set -/

/-- **C9**: `availableForDraftIds ⊆ participantIds` is preserved by the
three mutating operations: accepting an invitation adds the user id to
both lists in its one transaction, while captain assignment and
`pickPlayer` leave `participantIds` untouched and only shrink
`availableForDraftIds`. -/
theorem availableForDraft_subset_invariant
    (u : String) (ce : Option String) (fe : EventData) (iev : String)
    (cu : String) (e1 : EventData) (teams : List TeamData)
    (uid role newTeamId : String)
    (d : DraftData) (e2 : EventData) (t : TeamData) (rq pid : String)
    (tc now : Nat) :
    (∀ out, handleAccept u ce (some fe) iev = .ok out →
      out.event.participantIds = arrayUnion fe.participantIds u ∧
      out.event.availableForDraftIds = arrayUnion fe.availableForDraftIds u ∧
      u ∈ out.event.participantIds ∧ u ∈ out.event.availableForDraftIds ∧
      (fe.availableForDraftIds ⊆ fe.participantIds →
        out.event.availableForDraftIds ⊆ out.event.participantIds)) ∧
    (∀ out, handleMakeCaptain cu e1 teams uid role newTeamId = .ok out →
      out.event.participantIds = e1.participantIds ∧
      out.event.availableForDraftIds ⊆ e1.availableForDraftIds ∧
      (e1.availableForDraftIds ⊆ e1.participantIds →
        out.event.availableForDraftIds ⊆ out.event.participantIds)) ∧
    (∀ out, handlePickPlayer (some d) (some e2) (some t) rq pid tc now = .ok out →
      out.event.participantIds = e2.participantIds ∧
      out.event.availableForDraftIds ⊆ e2.availableForDraftIds ∧
      (e2.availableForDraftIds ⊆ e2.participantIds →
        out.event.availableForDraftIds ⊆ out.event.participantIds)) := by
  refine ⟨?_, ?_, ?_⟩
  · intro out h
    obtain ⟨-, ho⟩ := handleAccept_ok_inv h
    subst ho
    refine ⟨rfl, rfl, ?_, ?_, ?_⟩
    · exact mem_arrayUnion_iff.mpr (Or.inr rfl)
    · exact mem_arrayUnion_iff.mpr (Or.inr rfl)
    · intro hsub
      exact arrayUnion_subset_arrayUnion hsub
  · intro out h
    obtain ⟨-, -, -, ho⟩ := handleMakeCaptain_ok_inv h
    subst ho
    refine ⟨rfl, List.filter_subset' _, ?_⟩
    intro hsub y hy
    exact hsub (List.filter_subset' _ hy)
  · intro out h
    obtain ⟨-, -, -, ho⟩ := handlePickPlayer_ok_inv h
    subst ho
    refine ⟨rfl, arrayRemove_subset _ _, ?_⟩
    intro hsub y hy
    exact hsub (arrayRemove_subset _ _ hy)

/-- Witness for C9: the invariant after each of the three sample
operations, each discharged on its concrete success. -/
theorem availableForDraft_subset_invariant_witness :
    ("p9" ∈ arrayUnion sampleEvent.participantIds "p9" ∧
      arrayUnion sampleEvent.availableForDraftIds "p9" ⊆
        arrayUnion sampleEvent.participantIds "p9") ∧
    (sampleEvent.availableForDraftIds.filter (fun x => x ≠ "p2") ⊆
      sampleEvent.participantIds) ∧
    (arrayRemove sampleEvent.availableForDraftIds "p1" ⊆
      sampleEvent.participantIds) := by
  have hmain := availableForDraft_subset_invariant "p9" none sampleEvent "E1"
    "admin1" sampleEvent [sampleTeam] "p2" "participant" "T9"
    sampleDraft sampleEvent sampleTeam "T1" "p1" 2 5
  refine ⟨⟨?_, ?_⟩, ?_, ?_⟩
  · exact (hmain.1 _ (by rfl)).2.2.1
  · exact (hmain.1 _ (by rfl)).2.2.2.2 (by decide)
  · exact (hmain.2.1 _ (by rfl)).2.2 (by decide)
  · exact (hmain.2.2 _ (by rfl)).2.2 (by decide)

/-! ## C10: scores commit exactly once per sub-event -/

/-- **C10**: a successful score submission marks the sub-event
`completed` in the same atomic batch as the score writes, and an
admin submission against an already-completed sub-event is rejected up
front with no writes; hence scores for a sub-event commit through this
operation at most once. -/
theorem submitScores_completes_once (role : String) (se : SubEventData)
    (entries : List ScoreInput) (store : List ScoreRec)
    (teams : List TeamData) (eid sid uid : String) (now : Nat) :
    (role = "admin" → se.status = "completed" →
      handleSubmitScores role se entries store teams eid sid uid now =
        .error .subEventCompleted) ∧
    (∀ out, handleSubmitScores role se entries store teams eid sid uid now =
        .ok out →
      out.subEventStatus = "completed" ∧
      out.store = store ++ out.newRecords ∧ out.newRecords ≠ []) ∧
    (∀ out, handleSubmitScores role se entries store teams eid sid uid now =
        .ok out →
      ∀ entries2 (store2 : List ScoreRec) teams2 eid2 sid2 uid2 (now2 : Nat),
        handleSubmitScores role { se with status := out.subEventStatus }
          entries2 store2 teams2 eid2 sid2 uid2 now2 =
          .error .subEventCompleted) := by
  refine ⟨?_, ?_, ?_⟩
  · intro h1 h2
    simp only [handleSubmitScores]
    rw [if_neg (not_ne_iff.mpr h1), if_pos h2]
  · intro out h
    obtain ⟨-, -, recs, -, hne, ho⟩ := handleSubmitScores_ok_inv h
    subst ho
    exact ⟨rfl, rfl, hne⟩
  · intro out h entries2 store2 teams2 eid2 sid2 uid2 now2
    obtain ⟨hrole, -, recs, -, -, ho⟩ := handleSubmitScores_ok_inv h
    subst ho
    simp only [handleSubmitScores]
    rw [if_neg (not_ne_iff.mpr hrole)]
    simp

/-- The score record the sample submission stages. -/
def sampleScoreRec : ScoreRec :=
  { eventId := "E1", subEventId := "S1", teamId := "T1", points := 7,
    assignedBy := "admin1", assignedAt := 3, subEventName := "Trivia",
    teamName := "Unknown Team" }

/-- Witness for C10: the sample submission commits and completes the
sub-event, and resubmitting against the completed sub-event fails. -/
theorem submitScores_completes_once_witness :
    ({ store := [sampleScoreRec], subEventStatus := "completed",
        newRecords := [sampleScoreRec] } : SubmitOutcome).subEventStatus
      = "completed" ∧
    handleSubmitScores "admin" { name := "Trivia", status := "completed" }
      [{ teamId := "T1", points := "7" }] [] [] "E1" "S1" "admin1" 3 =
      .error .subEventCompleted := by
  have hmain := submitScores_completes_once "admin"
    { name := "Trivia", status := "active" }
    [{ teamId := "T1", points := "7" }] [] [] "E1" "S1" "admin1" 3
  refine ⟨(hmain.2.1 _ (by rfl)).1, ?_⟩
  have h2 := hmain.2.2
    ({ store := [sampleScoreRec], subEventStatus := "completed",
       newRecords := [sampleScoreRec] } : SubmitOutcome) (by rfl)
    [{ teamId := "T1", points := "7" }] [] [] "E1" "S1" "admin1" 3
  exact h2

/-! ## C5 and C6: `recordScores` appends, it never upserts -/

/-- Every record staged by the `scores.forEach` loop carries the
submitted sub-event id, and the staged team ids are, in order, a
sublist of the entry team ids (at most one record per entry). -/
theorem buildScoreRecs_ok_shape {eid sid uid sen : String}
    {teams : List TeamData} {now : Nat} :
    ∀ {entries : List ScoreInput} {recs : List ScoreRec},
      buildScoreRecs eid sid uid sen teams now entries = .ok recs →
      (∀ r ∈ recs, r.subEventId = sid) ∧
      List.Sublist (recs.map (fun r => r.teamId)) (entries.map (fun si => si.teamId)) := by
  intro entries
  induction entries with
  | nil =>
    intro recs h
    simp only [buildScoreRecs] at h
    have := Except.ok.inj h
    subst this
    exact ⟨by simp, by simp⟩
  | cons si rest ih =>
    intro recs h
    simp only [buildScoreRecs] at h
    split at h
    · obtain ⟨h1, h2⟩ := ih h
      exact ⟨h1, h2.trans (List.sublist_cons_self _ _)⟩
    · split at h
      · exact absurd h (by simp)
      · split at h
        · exact absurd h (by simp)
        · rename_i recs' hrecs'
          obtain ⟨h1, h2⟩ := ih hrecs'
          have hr := Except.ok.inj h
          subst hr
          constructor
          · intro r hr
            rcases List.mem_cons.mp hr with rfl | hmem
            · rfl
            · exact h1 r hmem
          · simpa using h2.cons₂ si.teamId

/-- A score record already stored for the pair `("S1", "T1")` before
the sample submission below. -/
def preScoreRec : ScoreRec :=
  { eventId := "E1", subEventId := "S1", teamId := "T1", points := 5,
    assignedBy := "admin1", assignedAt := 1, subEventName := "Trivia",
    teamName := "Unknown Team" }

/-- Counterexample to C5: submitting `T1 ↦ "7"` while a score record
for `("S1", "T1")` already exists does not update that record — it
appends a second record for the same `(subEventId, teamId)` pair, so
the call leaves two records for the pair. -/
theorem recordScores_no_upsert_counterexample :
    handleSubmitScores "admin" { name := "Trivia", status := "active" }
        [{ teamId := "T1", points := "7" }] [preScoreRec] [] "E1" "S1" "admin1" 3 =
      .ok
        { store := [preScoreRec, sampleScoreRec]
          subEventStatus := "completed"
          newRecords := [sampleScoreRec] } ∧
    List.countP (fun r => r.subEventId == "S1" && r.teamId == "T1")
      [preScoreRec, sampleScoreRec] = 2 :=
  ⟨rfl, rfl⟩

/-- **C5 (amended)**: `recordScores` never updates or deletes an
existing Score record: a successful call appends exactly its freshly
created records (one per non-empty entry, never more) to the store, all
carrying the submitted sub-event id.  At most one record per
`(subEventId, teamId)` pair holds after the call only when the store
held no record for this sub-event beforehand and the entries name
distinct teams — it is the completed-status gate, not any upsert logic,
that keeps the pair unique across calls. -/
theorem recordScores_append_only (role : String) (se : SubEventData)
    (entries : List ScoreInput) (store : List ScoreRec)
    (teams : List TeamData) (eid sid uid : String) (now : Nat)
    (out : SubmitOutcome)
    (h : handleSubmitScores role se entries store teams eid sid uid now = .ok out) :
    out.store = store ++ out.newRecords ∧
    (∀ r ∈ out.newRecords, r.subEventId = sid) ∧
    List.Sublist (out.newRecords.map (fun r => r.teamId)) (entries.map (fun si => si.teamId)) ∧
    ((entries.map (fun si => si.teamId)).Nodup →
      (∀ r ∈ store, r.subEventId ≠ sid) →
      ∀ tid, out.store.countP
        (fun r => r.subEventId == sid && r.teamId == tid) ≤ 1) := by
  obtain ⟨-, -, recs, hrecs, -, ho⟩ := handleSubmitScores_ok_inv h
  subst ho
  obtain ⟨hsub, hsl⟩ := buildScoreRecs_ok_shape hrecs
  refine ⟨rfl, hsub, hsl, ?_⟩
  intro hnd hstore tid
  rw [List.countP_append]
  have h0 : store.countP (fun r => r.subEventId == sid && r.teamId == tid) = 0 := by
    rw [List.countP_eq_zero]
    intro r hr
    simp only [Bool.and_eq_true, beq_iff_eq, not_and]
    intro hsid
    exact absurd hsid (hstore r hr)
  have hrec_nd : (recs.map (fun r => r.teamId)).Nodup := hnd.sublist hsl
  have h1 : recs.countP (fun r => r.subEventId == sid && r.teamId == tid) ≤
      recs.countP (fun r => r.teamId == tid) := by
    apply List.countP_mono_left
    intro r hr hpr
    simp only [Bool.and_eq_true] at hpr
    exact hpr.2
  have h2 : recs.countP (fun r => r.teamId == tid) =
      (recs.map (fun r => r.teamId)).count tid := by
    rw [List.count, List.countP_map]
    rfl
  have h3 : (recs.map (fun r => r.teamId)).count tid ≤ 1 :=
    List.nodup_iff_count_le_one.mp hrec_nd tid
  omega

/-- Witness for the amended C5: the sample submission on an empty store
with the single entry `T1 ↦ "7"` keeps the pair unique. -/
theorem recordScores_append_only_witness :
    ({ store := [sampleScoreRec], subEventStatus := "completed",
        newRecords := [sampleScoreRec] } : SubmitOutcome).store =
      [] ++ [sampleScoreRec] ∧
    (∀ tid, List.countP
      (fun r => r.subEventId == "S1" && r.teamId == tid) [sampleScoreRec] ≤ 1) := by
  have hmain := recordScores_append_only "admin"
    { name := "Trivia", status := "active" }
    [{ teamId := "T1", points := "7" }] [] [] "E1" "S1" "admin1" 3
    { store := [sampleScoreRec], subEventStatus := "completed",
      newRecords := [sampleScoreRec] } (by rfl)
  exact ⟨hmain.1, fun tid => by
    simpa using hmain.2.2.2 (by decide) (by simp) tid⟩

/-- Counterexample to C6: the first submission commits, and the second,
identical submission is indeed not re-committed — but it fails with the
sub-event-completed rejection, which is not the claimed `NoChanges`
report (the code's only nothing-to-submit report, `noScoresEntered`, is
a different error raised only when every entry is empty). -/
theorem recordScores_second_call_counterexample :
    handleSubmitScores "admin" { name := "Trivia", status := "active" }
        [{ teamId := "T1", points := "7" }] [] [] "E1" "S1" "admin1" 3 =
      .ok
        { store := [sampleScoreRec]
          subEventStatus := "completed"
          newRecords := [sampleScoreRec] } ∧
    handleSubmitScores "admin" { name := "Trivia", status := "completed" }
        [{ teamId := "T1", points := "7" }] [sampleScoreRec] [] "E1" "S1" "admin1" 4 =
      .error .subEventCompleted ∧
    SubmitError.subEventCompleted ≠ SubmitError.noScoresEntered :=
  ⟨rfl, rfl, by decide⟩

/-- **C6 (amended)**: if `recordScores` commits once, a second call
with the same entries (indeed, any later call for this sub-event)
performs no writes — it is rejected up front because the first call
marked the sub-event completed, and the rejection is the
sub-event-completed error rather than a `NoChanges` report. -/
theorem recordScores_second_call_rejected (role : String) (se : SubEventData)
    (entries : List ScoreInput) (store : List ScoreRec)
    (teams : List TeamData) (eid sid uid : String) (now : Nat)
    (out : SubmitOutcome)
    (h : handleSubmitScores role se entries store teams eid sid uid now = .ok out)
    (store2 : List ScoreRec) (now2 : Nat) :
    handleSubmitScores role { se with status := out.subEventStatus } entries
      store2 teams eid sid uid now2 = .error .subEventCompleted := by
  obtain ⟨hrole, -, recs, -, -, ho⟩ := handleSubmitScores_ok_inv h
  subst ho
  simp only [handleSubmitScores]
  rw [if_neg (not_ne_iff.mpr hrole)]
  simp

/-- Witness for the amended C6: the sample submission commits, and
replaying it against the resulting state is rejected. -/
theorem recordScores_second_call_rejected_witness :
    handleSubmitScores "admin" { name := "Trivia", status := "completed" }
        [{ teamId := "T1", points := "7" }] [sampleScoreRec] [] "E1" "S1" "admin1" 4 =
      .error .subEventCompleted :=
  recordScores_second_call_rejected "admin" { name := "Trivia", status := "active" }
    [{ teamId := "T1", points := "7" }] [] [] "E1" "S1" "admin1" 3
    { store := [sampleScoreRec], subEventStatus := "completed",
      newRecords := [sampleScoreRec] } (by rfl) [sampleScoreRec] 4

/-! ## C2: the pick counters after `k` successful picks -/

/-- A successful `handleStartDraft` determines the fresh snapshot and
the committed draft/event pair. -/
theorem handleStartDraft_ok_inv {cu : String} {ev : EventData}
    {teams : List TeamData} {fe : Option EventData} {draws : Nat → Nat}
    {now : Nat} {out : StartOutcome}
    (h : handleStartDraft cu ev teams fe draws now = .ok out) :
    ∃ feData, fe = some feData ∧
      out =
        { draft :=
            { status := "active"
              pickOrder := shuffleArray draws (teams.map (fun team => team.id))
              currentPickIndex := 0
              roundNumber := 1
              totalPicksMade := 0
              lastPickTimestamp := now }
          event := { feData with status := "drafting" } } := by
  simp only [handleStartDraft] at h
  split at h
  · exact absurd h (by simp)
  · split at h
    · exact absurd h (by simp)
    · split at h
      · exact absurd h (by simp)
      · split at h
        · exact absurd h (by simp)
        · split at h
          · exact absurd h (by simp)
          · rename_i feData
            split at h
            · exact absurd h (by simp)
            · exact ⟨feData, rfl, (Except.ok.inj h).symm⟩

/-- Advancing by one inside a round: `(k % n + 1) % n = (k + 1) % n`. -/
theorem pickIndex_step (k n : Nat) : (k % n + 1) % n = (k + 1) % n :=
  Nat.mod_add_mod k n 1

/-- The round counter bumps exactly at wrap-around:
incrementing when the new index is 0 realises `1 + (k + 1) / n`. -/
theorem roundNumber_step (k n : Nat) :
    (if (k + 1) % n = 0 then 1 + k / n + 1 else 1 + k / n) =
      1 + (k + 1) / n := by
  rw [Nat.succ_div]
  by_cases h : n ∣ (k + 1)
  · rw [if_pos (Nat.dvd_iff_mod_eq_zero.mp h), if_pos h]
    omega
  · rw [if_neg (fun hm => h (Nat.dvd_iff_mod_eq_zero.mpr hm)), if_neg h]
    omega

/-- Invariant of the pick loop: starting from counters describing `k`
picks made, `reqs.length` further successful picks leave counters
describing `k + reqs.length` picks, with the pick order untouched. -/
theorem applyPicks_counters (n : Nat) (_hn : 1 ≤ n) :
    ∀ (reqs : List PickReq) (k : Nat) (s final : DraftData × EventData),
      applyPicks s reqs = .ok final →
      s.1.pickOrder.length = n →
      s.1.totalPicksMade = k →
      s.1.currentPickIndex = k % n →
      s.1.roundNumber = 1 + k / n →
      final.1.pickOrder = s.1.pickOrder ∧
      final.1.totalPicksMade = k + reqs.length ∧
      final.1.currentPickIndex = (k + reqs.length) % n ∧
      final.1.roundNumber = 1 + (k + reqs.length) / n := by
  intro reqs
  induction reqs with
  | nil =>
    intro k s final h hlen ht hi hr
    simp only [applyPicks] at h
    obtain rfl := Except.ok.inj h
    simpa using ⟨ht, hi, hr⟩
  | cons r rs ih =>
    intro k s final h hlen ht hi hr
    simp only [applyPicks] at h
    split at h
    · exact absurd h (by simp)
    · rename_i s1 heq
      simp only [pickStep] at heq
      split at heq
      · exact absurd heq (by simp)
      · rename_i out hout
        obtain rfl := Except.ok.inj heq
        obtain ⟨-, -, -, ho⟩ := handlePickPlayer_ok_inv hout
        subst ho
        have hstep := ih (k + 1) _ final h
          (by simpa using hlen)
          (by simpa using ht)
          (by
            dsimp only
            rw [hi, hlen, pickIndex_step])
          (by
            dsimp only
            rw [hi, hlen, pickIndex_step, hr, roundNumber_step k n])
        refine ⟨by simpa using hstep.1, ?_, ?_, ?_⟩
        · rw [hstep.2.1]
          simp
          omega
        · rw [hstep.2.2.1]
          congr 1
          simp
          omega
        · rw [hstep.2.2.2]
          congr 2
          simp
          omega

/-- **C2**: starting from a draft as `startDraft` creates it
(`currentPickIndex = 0`, `roundNumber = 1`, `totalPicksMade = 0`) over
a pick order of length `n ≥ 1`, after `k` successful `pickPlayer` calls
the counters read `totalPicksMade = k`, `currentPickIndex = k mod n`
and `roundNumber = 1 + k div n`. -/
theorem draft_counters_after_k_picks
    (cu : String) (ev : EventData) (teams : List TeamData)
    (fe : Option EventData) (draws : Nat → Nat) (now : Nat)
    (out : StartOutcome) (reqs : List PickReq)
    (final : DraftData × EventData)
    (hstart : handleStartDraft cu ev teams fe draws now = .ok out)
    (hn : 1 ≤ out.draft.pickOrder.length)
    (happ : applyPicks (out.draft, out.event) reqs = .ok final) :
    final.1.totalPicksMade = reqs.length ∧
    final.1.currentPickIndex = reqs.length % out.draft.pickOrder.length ∧
    final.1.roundNumber = 1 + reqs.length / out.draft.pickOrder.length := by
  obtain ⟨feData, -, ho⟩ := handleStartDraft_ok_inv hstart
  have hctr := applyPicks_counters out.draft.pickOrder.length hn reqs 0
    (out.draft, out.event) final happ rfl
    (by rw [ho]) (by rw [ho]; simp) (by rw [ho]; simp)
  refine ⟨?_, ?_, ?_⟩
  · simpa using hctr.2.1
  · simpa using hctr.2.2.1
  · simpa using hctr.2.2.2

/-- An event still assigning captains, ready for `startDraft`. -/
def setupEvent : EventData :=
  { status := "assigningCaptains", adminId := "admin1", numberOfTeams := 2,
    participantIds := ["c1", "c2", "p1", "p2", "p3"],
    availableForDraftIds := ["p1", "p2", "p3"] }

/-- The second sample team. -/
def sampleTeamTwo : TeamData :=
  { id := "T2", name := "Team 2", captainId := "c2", memberIds := ["c2"] }

/-- What `handleStartDraft` commits on `setupEvent` with the all-zero
draw sequence: the shuffle swaps positions 1 and 0. -/
def startOutSample : StartOutcome :=
  { draft :=
      { status := "active", pickOrder := ["T2", "T1"], currentPickIndex := 0,
        roundNumber := 1, totalPicksMade := 0, lastPickTimestamp := 7 }
    event := { setupEvent with status := "drafting" } }

/-- The one pick of the sample trace: team `T2` takes `p1` at time 9. -/
def pickReqSample : PickReq :=
  { team := sampleTeamTwo, requestingTeamId := "T2", playerId := "p1",
    teamsCount := 2, now := 9 }

/-- The state after that pick: two players left against two teams, so
the pick completes the draft. -/
def finalSample : DraftData × EventData :=
  ({ status := "completed", pickOrder := ["T2", "T1"], currentPickIndex := 1,
     roundNumber := 1, totalPicksMade := 1, lastPickTimestamp := 9 },
   { status := "active", adminId := "admin1", numberOfTeams := 2,
     participantIds := ["c1", "c2", "p1", "p2", "p3"],
     availableForDraftIds := ["p2", "p3"] })

/-- Witness for C2: one successful pick after the sample `startDraft`
leaves `totalPicksMade = 1`, `currentPickIndex = 1 % 2` and
`roundNumber = 1 + 1 / 2`. -/
theorem draft_counters_after_k_picks_witness :
    finalSample.1.totalPicksMade = 1 ∧
    finalSample.1.currentPickIndex = 1 % startOutSample.draft.pickOrder.length ∧
    finalSample.1.roundNumber = 1 + 1 / startOutSample.draft.pickOrder.length :=
  draft_counters_after_k_picks "admin1" setupEvent [sampleTeam, sampleTeamTwo]
    (some setupEvent) (fun _ => 0) 7 startOutSample [pickReqSample] finalSample
    (by rfl) (by decide) (by rfl)

/-! ## C4: the shuffled pick order is a permutation of the team ids -/

/-- Writing a list element back at the head's old spot permutes:
`y :: t.set k a ~ a :: t` whenever `t.get? k = some y`. -/
theorem cons_set_perm {α : Type} :
    ∀ (t : List α) (k : Nat) (a y : α), t.get? k = some y →
      (y :: t.set k a).Perm (a :: t) := by
  intro t
  induction t with
  | nil => intro k a y h; cases h
  | cons b t' ih =>
    intro k a y h
    match k with
    | 0 =>
      obtain rfl := Option.some.inj h
      exact List.Perm.swap a b t'
    | k' + 1 =>
      have h' : t'.get? k' = some y := h
      have s1 : (y :: b :: t'.set k' a).Perm (b :: y :: t'.set k' a) :=
        List.Perm.swap b y _
      have s2 : (b :: y :: t'.set k' a).Perm (b :: a :: t') :=
        (ih k' a y h').cons b
      have s3 : (b :: a :: t').Perm (a :: b :: t') := List.Perm.swap a b t'
      exact (s1.trans s2).trans s3

/-- A double `set` that exchanges two stored elements permutes the
list. -/
theorem set_set_perm {α : Type} :
    ∀ (l : List α) (i j : Nat) (x y : α),
      l.get? i = some x → l.get? j = some y →
      ((l.set i y).set j x).Perm l := by
  intro l
  induction l with
  | nil => intro i j x y hx _; cases hx
  | cons a t ih =>
    intro i j x y hx hy
    match i, j with
    | 0, 0 =>
      obtain rfl := Option.some.inj hx
      obtain rfl := Option.some.inj hy
      exact List.Perm.refl _
    | 0, m + 1 =>
      obtain rfl := Option.some.inj hx
      have hy' : t.get? m = some y := hy
      exact cons_set_perm t m a y hy'
    | m + 1, 0 =>
      obtain rfl := Option.some.inj hy
      have hx' : t.get? m = some x := hx
      exact cons_set_perm t m a x hx'
    | m + 1, m' + 1 =>
      exact (ih m m' x y hx hy).cons a

/-- Every `listSwap` permutes the list. -/
theorem listSwap_perm {α : Type} (l : List α) (i j : Nat) :
    (listSwap l i j).Perm l := by
  unfold listSwap
  split
  · rename_i x y hx hy
    exact set_set_perm l i j x y hx hy
  · exact List.Perm.refl _

/-- Every run of the shuffle loop permutes the list, whatever the
drawn indices were. -/
theorem shuffleAux_perm {α : Type} (draws : Nat → Nat) :
    ∀ (i : Nat) (l : List α), (shuffleAux draws i l).Perm l := by
  intro i
  induction i with
  | zero => intro l; exact List.Perm.refl _
  | succ i ih =>
    intro l
    exact (ih _).trans (listSwap_perm l (i + 1) (draws (i + 1)))

/-- `shuffleArray` returns a permutation of its input for every draw
sequence. -/
theorem shuffleArray_perm {α : Type} (draws : Nat → Nat) (l : List α) :
    (shuffleArray draws l).Perm l :=
  shuffleAux_perm draws (l.length - 1) l

/-- **C4**: a successful `startDraft` stores as `pickOrder` the
in-place-shuffle image of the event's team ids — a permutation of
exactly that id list (same multiset, and duplicate free whenever the
team ids are), whatever indices the random draws produced — and
`pickPlayer`, the only writer of the draft document afterwards, never
changes `pickOrder`. -/
theorem startDraft_pickOrder_permutation
    (cu : String) (ev : EventData) (teams : List TeamData)
    (fe : Option EventData) (draws : Nat → Nat) (now : Nat)
    (out : StartOutcome)
    (hstart : handleStartDraft cu ev teams fe draws now = .ok out) :
    out.draft.pickOrder = shuffleArray draws (teams.map (fun team => team.id)) ∧
    out.draft.pickOrder.Perm (teams.map (fun team => team.id)) ∧
    ((teams.map (fun team => team.id)).Nodup → out.draft.pickOrder.Nodup) ∧
    (∀ (d : DraftData) (e : EventData) (t : TeamData) (rq pid : String)
      (tc now2 : Nat) (pout : PickOutcome),
      handlePickPlayer (some d) (some e) (some t) rq pid tc now2 = .ok pout →
      pout.draft.pickOrder = d.pickOrder) := by
  obtain ⟨feData, -, ho⟩ := handleStartDraft_ok_inv hstart
  subst ho
  refine ⟨rfl, shuffleArray_perm draws _, ?_, ?_⟩
  · intro hnd
    exact ((shuffleArray_perm draws _).symm).nodup hnd
  · intro d e t rq pid tc now2 pout hpick
    obtain ⟨-, -, -, hpo⟩ := handlePickPlayer_ok_inv hpick
    subst hpo
    rfl

/-- Witness for C4: the sample `startDraft` stores `["T2", "T1"]`, a
duplicate-free permutation of the team ids `["T1", "T2"]`, and the
sample pick leaves the pick order untouched. -/
theorem startDraft_pickOrder_permutation_witness :
    startOutSample.draft.pickOrder.Perm
      ([sampleTeam, sampleTeamTwo].map (fun team => team.id)) ∧
    startOutSample.draft.pickOrder.Nodup ∧
    samplePickOutcome.draft.pickOrder = sampleDraft.pickOrder := by
  have h := startDraft_pickOrder_permutation "admin1" setupEvent
    [sampleTeam, sampleTeamTwo] (some setupEvent) (fun _ => 0) 7
    startOutSample (by rfl)
  exact ⟨h.2.1, h.2.2.1 (by decide),
    h.2.2.2 sampleDraft sampleEvent sampleTeam "T1" "p1" 2 5
      samplePickOutcome (by rfl)⟩

/-! ## C7: leaderboard machinery

`teamTotal`/`teamBreakdown`/`entryFor` give the closed form of the
aggregation fold; `entryKey` drops the auxiliary breakdown field (the
leaderboard proper is team, name and total). -/

/-- The summed points of all score records of one team. -/
def teamTotal (scores : List ScoreRec) (tid : String) : Int :=
  ((scores.filter (fun s => s.teamId = tid)).map (fun s => s.points)).sum

/-- The breakdown rows one team accumulates, in score order. -/
def teamBreakdown (scores : List ScoreRec) (tid : String) : List (String × Int) :=
  (scores.filter (fun s => s.teamId = tid)).map (fun s => (s.subEventName, s.points))

/-- The closed form of one aggregated entry. -/
def entryFor (scores : List ScoreRec) (t : TeamData) : LeaderboardEntry :=
  { teamId := t.id, teamName := t.name, totalPoints := teamTotal scores t.id,
    scoresBreakdown := teamBreakdown scores t.id }

/-- The leaderboard-proper part of an entry: team id, name, total. -/
def entryKey (e : LeaderboardEntry) : String × String × Int :=
  (e.teamId, e.teamName, e.totalPoints)

/-- What one score does to the matching entry. -/
def applyScore (s : ScoreRec) (e : LeaderboardEntry) : LeaderboardEntry :=
  { e with
    totalPoints := e.totalPoints + s.points
    scoresBreakdown := e.scoresBreakdown ++ [(s.subEventName, s.points)] }

/-- Upserting a fresh key appends. -/
theorem upsertEntry_append (acc : List LeaderboardEntry) (e : LeaderboardEntry)
    (h : e.teamId ∉ acc.map (fun x => x.teamId)) :
    upsertEntry acc e = acc ++ [e] := by
  induction acc with
  | nil => rfl
  | cons x xs ih =>
    simp only [List.map_cons, List.mem_cons] at h
    push_neg at h
    rw [upsertEntry, if_neg (fun hx => h.1 hx.symm), ih h.2]
    rfl

/-- The initialisation fold over distinct fresh team ids is an append
of one zero entry per team. -/
theorem init_fold_eq :
    ∀ (teams : List TeamData) (acc : List LeaderboardEntry),
      (teams.map (fun t => t.id)).Nodup →
      (∀ i ∈ teams.map (fun t => t.id), i ∉ acc.map (fun e => e.teamId)) →
      teams.foldl (fun a t => upsertEntry a (initEntry t)) acc =
        acc ++ teams.map initEntry := by
  intro teams
  induction teams with
  | nil => intro acc _ _; simp
  | cons t ts ih =>
    intro acc hnd hfresh
    have hthead : t.id ∉ acc.map (fun e => e.teamId) :=
      hfresh t.id (by simp)
    have hup : upsertEntry acc (initEntry t) = acc ++ [initEntry t] :=
      upsertEntry_append acc (initEntry t) hthead
    simp only [List.foldl_cons, hup]
    rw [ih (acc ++ [initEntry t]) (by simpa using (List.nodup_cons.mp (by simpa using hnd)).2) ?_]
    · simp
    · intro i hi
      simp only [List.map_append, List.mem_append, List.map_cons, List.map_nil,
        List.mem_singleton, not_or]
      constructor
      · exact hfresh i (by simp [hi])
      · have hhead : t.id ∉ ts.map (fun t => t.id) :=
          (List.nodup_cons.mp (by simpa using hnd)).1
        simp only [initEntry, List.mem_singleton]
        intro hcontra
        exact hhead (hcontra ▸ hi)

/-- On entries with distinct team ids, `addScore` is the pointwise
update of the matching entry. -/
theorem addScore_eq_map (s : ScoreRec) :
    ∀ (acc : List LeaderboardEntry),
      (acc.map (fun e => e.teamId)).Nodup →
      addScore acc s =
        acc.map (fun e => if e.teamId = s.teamId then applyScore s e else e) := by
  intro acc
  induction acc with
  | nil => intro _; rfl
  | cons x xs ih =>
    intro hnd
    simp only [List.map_cons, List.nodup_cons] at hnd
    by_cases hx : x.teamId = s.teamId
    · rw [addScore, if_pos hx, List.map_cons, if_pos hx]
      have : xs.map (fun e => if e.teamId = s.teamId then applyScore s e else e) =
          xs.map (fun e => e) := by
        apply List.map_congr_left
        intro e he
        rw [if_neg]
        intro hes
        exact hnd.1 (by
          rw [← hx] at hes
          exact (List.mem_map.mpr ⟨e, he, hes⟩))
      rw [this, List.map_id']
      exact congrArg (fun l => applyScore s x :: l) rfl
    · rw [addScore, if_neg hx, List.map_cons, if_neg hx, ih hnd.2]

/-- `teamTotal` over one more score. -/
theorem teamTotal_cons (s : ScoreRec) (ss : List ScoreRec) (tid : String) :
    teamTotal (s :: ss) tid =
      (if s.teamId = tid then s.points else 0) + teamTotal ss tid := by
  by_cases h : s.teamId = tid <;>
    simp [teamTotal, List.filter_cons, h]

/-- `teamBreakdown` over one more score. -/
theorem teamBreakdown_cons (s : ScoreRec) (ss : List ScoreRec) (tid : String) :
    teamBreakdown (s :: ss) tid =
      (if s.teamId = tid then [(s.subEventName, s.points)] else []) ++
        teamBreakdown ss tid := by
  by_cases h : s.teamId = tid <;>
    simp [teamBreakdown, List.filter_cons, h]

/-- The whole score fold, in closed form, over entries with distinct
team ids. -/
theorem foldl_addScore_eq (scores : List ScoreRec) :
    ∀ (acc : List LeaderboardEntry),
      (acc.map (fun e => e.teamId)).Nodup →
      scores.foldl addScore acc =
        acc.map (fun e =>
          { e with
            totalPoints := e.totalPoints + teamTotal scores e.teamId
            scoresBreakdown :=
              e.scoresBreakdown ++ teamBreakdown scores e.teamId }) := by
  induction scores with
  | nil =>
    intro acc _
    simp only [List.foldl_nil]
    have hpt : ∀ e : LeaderboardEntry,
        ({ e with
           totalPoints := e.totalPoints + teamTotal [] e.teamId
           scoresBreakdown := e.scoresBreakdown ++ teamBreakdown [] e.teamId } :
          LeaderboardEntry) = e := by
      intro e
      simp [teamTotal, teamBreakdown]
    rw [List.map_congr_left (fun e _ => hpt e), List.map_id']
  | cons s ss ih =>
    intro acc hnd
    simp only [List.foldl_cons]
    have hids : (addScore acc s).map (fun e => e.teamId) =
        acc.map (fun e => e.teamId) := by
      rw [addScore_eq_map s acc hnd, List.map_map]
      apply List.map_congr_left
      intro e _
      by_cases h : e.teamId = s.teamId <;> simp [Function.comp, applyScore, h]
    rw [ih (addScore acc s) (by rw [hids]; exact hnd),
      addScore_eq_map s acc hnd, List.map_map]
    apply List.map_congr_left
    intro e _
    by_cases h : e.teamId = s.teamId
    · simp only [Function.comp, if_pos h, applyScore, teamTotal_cons,
        teamBreakdown_cons, if_pos h.symm]
      simp [add_assoc]
    · have hns : ¬(s.teamId = e.teamId) := fun hs => h hs.symm
      simp only [Function.comp, if_neg h, teamTotal_cons, teamBreakdown_cons,
        if_neg hns]
      simp

/-- The whole aggregation (initialisation fold, then score fold) in
closed form: one `entryFor` per team, in team order. -/
theorem aggregate_eq_entryFor (teams : List TeamData) (scores : List ScoreRec)
    (hnd : (teams.map (fun t => t.id)).Nodup) :
    scores.foldl addScore
        (teams.foldl (fun acc t => upsertEntry acc (initEntry t)) []) =
      teams.map (entryFor scores) := by
  rw [init_fold_eq teams [] hnd (by simp), List.nil_append]
  have hids : (teams.map initEntry).map (fun e => e.teamId) =
      teams.map (fun t => t.id) := by
    rw [List.map_map]
    rfl
  rw [foldl_addScore_eq scores (teams.map initEntry) (by rw [hids]; exact hnd),
    List.map_map]
  apply List.map_congr_left
  intro t _
  simp [Function.comp, initEntry, entryFor]

/-- Inserting permutes: `insertByPoints e l` is `e :: l` up to order. -/
theorem insertByPoints_perm (e : LeaderboardEntry) :
    ∀ l : List LeaderboardEntry, (insertByPoints e l).Perm (e :: l) := by
  intro l
  induction l with
  | nil => exact List.Perm.refl _
  | cons x xs ih =>
    rw [insertByPoints]
    split
    · exact List.Perm.refl _
    · exact (ih.cons x).trans (List.Perm.swap e x xs)

/-- The sort fold permutes its input. -/
theorem sortFold_perm :
    ∀ (l acc : List LeaderboardEntry),
      (l.foldl (fun a e => insertByPoints e a) acc).Perm (acc ++ l) := by
  intro l
  induction l with
  | nil => intro acc; simp
  | cons e es ih =>
    intro acc
    have h1 := ih (insertByPoints e acc)
    have h2 : (insertByPoints e acc ++ es).Perm ((e :: acc) ++ es) :=
      (insertByPoints_perm e acc).append_right es
    have h3 : ((e :: acc) ++ es).Perm (acc ++ e :: es) := List.perm_middle.symm
    simpa using (h1.trans h2).trans h3

/-- `sortByPointsDesc` permutes its input. -/
theorem sortByPointsDesc_perm (l : List LeaderboardEntry) :
    (sortByPointsDesc l).Perm l := by
  simpa using sortFold_perm l []

/-- Insertion keeps the list sorted by points descending. -/
theorem insertByPoints_pairwise (e : LeaderboardEntry) :
    ∀ l : List LeaderboardEntry,
      l.Pairwise (fun a b => b.totalPoints ≤ a.totalPoints) →
      (insertByPoints e l).Pairwise (fun a b => b.totalPoints ≤ a.totalPoints) := by
  intro l
  induction l with
  | nil => intro _; simp [insertByPoints]
  | cons x xs ih =>
    intro h
    obtain ⟨hx, hxs⟩ := List.pairwise_cons.mp h
    rw [insertByPoints]
    split
    · rename_i hlt
      refine List.pairwise_cons.mpr ⟨?_, h⟩
      intro y hy
      rcases List.mem_cons.mp hy with rfl | hmem
      · omega
      · have := hx y hmem
        omega
    · rename_i hge
      refine List.pairwise_cons.mpr ⟨?_, ih hxs⟩
      intro y hy
      have hy' := (insertByPoints_perm e xs).mem_iff.mp hy
      rcases List.mem_cons.mp hy' with rfl | hmem
      · omega
      · exact hx y hmem

/-- The sort fold produces a points-descending list. -/
theorem sortFold_pairwise :
    ∀ (l acc : List LeaderboardEntry),
      acc.Pairwise (fun a b => b.totalPoints ≤ a.totalPoints) →
      (l.foldl (fun a e => insertByPoints e a) acc).Pairwise
        (fun a b => b.totalPoints ≤ a.totalPoints) := by
  intro l
  induction l with
  | nil => intro acc h; exact h
  | cons e es ih =>
    intro acc h
    exact ih (insertByPoints e acc) (insertByPoints_pairwise e acc h)

/-- Stability of one insertion: restricted to any fixed total `v`, the
inserted element lands after the existing elements of that total. -/
theorem insertByPoints_filter (e : LeaderboardEntry) (v : Int) :
    ∀ l : List LeaderboardEntry,
      l.Pairwise (fun a b => b.totalPoints ≤ a.totalPoints) →
      (insertByPoints e l).filter (fun x => x.totalPoints = v) =
        l.filter (fun x => x.totalPoints = v) ++
          (if e.totalPoints = v then [e] else []) := by
  intro l
  induction l with
  | nil =>
    intro _
    by_cases hv : e.totalPoints = v <;>
      simp [insertByPoints, List.filter_cons, hv]
  | cons x xs ih =>
    intro h
    obtain ⟨hx, hxs⟩ := List.pairwise_cons.mp h
    rw [insertByPoints]
    split
    · rename_i hlt
      by_cases hv : e.totalPoints = v
      · have hnil : (x :: xs).filter (fun y => y.totalPoints = v) = [] := by
          rw [List.filter_eq_nil_iff]
          intro y hy
          simp only [decide_eq_true_eq]
          rcases List.mem_cons.mp hy with rfl | hmem
          · omega
          · have := hx y hmem
            omega
        rw [hnil, List.filter_cons, if_pos (by simpa using hv), hnil, if_pos hv]
        rfl
      · rw [List.filter_cons, if_neg (by simpa using hv), if_neg hv,
          List.append_nil]
    · rename_i hge
      rw [List.filter_cons, List.filter_cons, ih hxs]
      by_cases hxv : x.totalPoints = v
      · simp only [if_pos (show decide (x.totalPoints = v) = true by
          simpa using hxv)]
        rw [List.cons_append]
      · simp only [if_neg (show ¬decide (x.totalPoints = v) = true by
          simpa using hxv)]

/-- Stability of the whole sort fold. -/
theorem sortFold_filter (v : Int) :
    ∀ (l acc : List LeaderboardEntry),
      acc.Pairwise (fun a b => b.totalPoints ≤ a.totalPoints) →
      (l.foldl (fun a e => insertByPoints e a) acc).filter
          (fun x => x.totalPoints = v) =
        acc.filter (fun x => x.totalPoints = v) ++
          l.filter (fun x => x.totalPoints = v) := by
  intro l
  induction l with
  | nil => intro acc _; simp
  | cons e es ih =>
    intro acc h
    rw [List.foldl_cons, ih (insertByPoints e acc) (insertByPoints_pairwise e acc h),
      insertByPoints_filter e v acc h, List.filter_cons, List.append_assoc]
    by_cases hv : e.totalPoints = v
    · rw [if_pos hv, if_pos (by simpa using hv)]
      rfl
    · rw [if_neg hv, if_neg (by simpa using hv)]
      rfl

/-- `sortByPointsDesc` keeps the relative order of equal totals: its
restriction to any total equals the input's restriction. -/
theorem sortByPointsDesc_filter (l : List LeaderboardEntry) (v : Int) :
    (sortByPointsDesc l).filter (fun x => x.totalPoints = v) =
      l.filter (fun x => x.totalPoints = v) := by
  simpa using sortFold_filter v l [] (by simp)

/-- Insertion looks only at the entry keys, so two key-equal lists stay
key-equal after inserting key-equal elements. -/
theorem insertByPoints_key_congr :
    ∀ (l1 l2 : List LeaderboardEntry) (e1 e2 : LeaderboardEntry),
      entryKey e1 = entryKey e2 →
      l1.map entryKey = l2.map entryKey →
      (insertByPoints e1 l1).map entryKey = (insertByPoints e2 l2).map entryKey := by
  intro l1
  induction l1 with
  | nil =>
    intro l2 e1 e2 he hl
    have : l2 = [] := by
      cases l2 with
      | nil => rfl
      | cons y ys => simp at hl
    subst this
    simpa [insertByPoints] using he
  | cons x xs ih =>
    intro l2 e1 e2 he hl
    cases l2 with
    | nil => simp at hl
    | cons y ys =>
      simp only [List.map_cons, List.cons.injEq] at hl
      obtain ⟨hxy, hxys⟩ := hl
      have hxt : x.totalPoints = y.totalPoints := by
        have := congrArg (fun k => k.2.2) hxy
        simpa [entryKey] using this
      have het : e1.totalPoints = e2.totalPoints := by
        have := congrArg (fun k => k.2.2) he
        simpa [entryKey] using this
      rw [insertByPoints, insertByPoints]
      by_cases hc : x.totalPoints < e1.totalPoints
      · rw [if_pos hc, if_pos (by omega)]
        simp only [List.map_cons]
        rw [he, hxy, hxys]
      · rw [if_neg hc, if_neg (by omega)]
        simp only [List.map_cons]
        rw [hxy, ih ys e1 e2 he hxys]

/-- The sort fold looks only at the entry keys. -/
theorem sortFold_key_congr :
    ∀ (l1 l2 acc1 acc2 : List LeaderboardEntry),
      l1.map entryKey = l2.map entryKey →
      acc1.map entryKey = acc2.map entryKey →
      (l1.foldl (fun a e => insertByPoints e a) acc1).map entryKey =
        (l2.foldl (fun a e => insertByPoints e a) acc2).map entryKey := by
  intro l1
  induction l1 with
  | nil =>
    intro l2 acc1 acc2 hl hacc
    have : l2 = [] := by
      cases l2 with
      | nil => rfl
      | cons y ys => simp at hl
    subst this
    exact hacc
  | cons x xs ih =>
    intro l2 acc1 acc2 hl hacc
    cases l2 with
    | nil => simp at hl
    | cons y ys =>
      simp only [List.map_cons, List.cons.injEq] at hl
      obtain ⟨hxy, hxys⟩ := hl
      exact ih ys (insertByPoints x acc1) (insertByPoints y acc2) hxys
        (insertByPoints_key_congr acc1 acc2 x y hxy hacc)

/-- Restricting the aggregate to one total and projecting to ids is
the same as filtering the teams by their total. -/
theorem filter_map_entryFor (teams : List TeamData) (scores : List ScoreRec)
    (v : Int) :
    ((teams.map (entryFor scores)).filter (fun e => e.totalPoints = v)).map
        (fun e => e.teamId) =
      (teams.filter (fun t => teamTotal scores t.id = v)).map
        (fun t => t.id) := by
  induction teams with
  | nil => rfl
  | cons t ts ih =>
    simp only [List.map_cons, List.filter_cons]
    by_cases hv : teamTotal scores t.id = v
    · rw [if_pos (show decide ((entryFor scores t).totalPoints = v) = true by
          simpa [entryFor] using hv),
        if_pos (show decide (teamTotal scores t.id = v) = true by simpa using hv)]
      simp only [List.map_cons, ih]
      rfl
    · rw [if_neg (show ¬decide ((entryFor scores t).totalPoints = v) = true by
          simpa [entryFor] using hv),
        if_neg (show ¬decide (teamTotal scores t.id = v) = true by
          simpa using hv)]
      exact ih

/-- A team whose document id sorts first but which was created second. -/
def tieTeamA : TeamData :=
  { id := "A", name := "Alpha", captainId := "ca", memberIds := ["ca"] }

/-- A team whose document id sorts second but which was created first. -/
def tieTeamB : TeamData :=
  { id := "B", name := "Beta", captainId := "cb", memberIds := ["cb"] }

/-- Modelled from the spec: the creation instants of the sample teams —
the `createdAt: serverTimestamp()` each team document receives at
creation, a field the leaderboard page never fetches.  `B` was created
before `A` (instants 1 and 2), while the page's team query has no
`orderBy`, so the store hands back ascending document-id order
`[A, B]`. -/
def sampleCreatedAt : String → Nat :=
  fun tid => if tid = "A" then 2 else 1

/-- Stable ascending insertion by creation instant. -/
def insertByCreatedAt (createdAt : String → Nat) (tid : String) :
    List String → List String
  | [] => [tid]
  | x :: xs =>
    if createdAt tid < createdAt x then tid :: x :: xs
    else x :: insertByCreatedAt createdAt tid xs

/-- Modelled from the spec: "ties broken by team creation order" — the
ids of a fetched team list re-ordered by ascending creation instant. -/
def creationOrder (createdAt : String → Nat) (teams : List TeamData) :
    List String :=
  (teams.map (fun t => t.id)).foldl
    (fun acc tid => insertByCreatedAt createdAt tid acc) []

/-- The tied score of team `A`. -/
def tieScoreA : ScoreRec :=
  { eventId := "E1", subEventId := "S1", teamId := "A", points := 5,
    assignedBy := "admin1", assignedAt := 3, subEventName := "Trivia",
    teamName := "Alpha" }

/-- The tied score of team `B`. -/
def tieScoreB : ScoreRec :=
  { eventId := "E1", subEventId := "S1", teamId := "B", points := 5,
    assignedBy := "admin1", assignedAt := 4, subEventName := "Trivia",
    teamName := "Beta" }

/-- Counterexample to C7's tie-break clause: the team query of the
leaderboard page has no `orderBy`, so the store returns the teams in
ascending document-id order `[A, B]`; on equal totals the code keeps
exactly that order, `[A, B]`, although team creation order is `[B, A]`
(`B` was created first).  Ties are broken by fetch (document-id) order,
not by team creation order. -/
theorem leaderboard_tie_not_creation_order_counterexample :
    (leaderboardData [tieTeamA, tieTeamB] [tieScoreA, tieScoreB]).map
        (fun e => e.teamId) = ["A", "B"] ∧
    creationOrder sampleCreatedAt [tieTeamA, tieTeamB] = ["B", "A"] ∧
    (["A", "B"] : List String) ≠ ["B", "A"] :=
  ⟨rfl, rfl, by decide⟩

/-- **C7 (amended)**: for distinct team ids, `leaderboardData` returns
one entry per team of the event whose total is the summed points of
that team's score records (teams without scores total 0), sorted by
total points descending with ties kept in the order of the fetched team
list — the store's ascending document-id order, since the team query
has no `orderBy`, which need not be team creation order; its
team/name/total content is invariant under any reordering of the score
records, and re-invoking it returns the same value. -/
theorem leaderboard_contract (teams : List TeamData) (scores : List ScoreRec)
    (hnd : (teams.map (fun t => t.id)).Nodup) :
    ((leaderboardData teams scores).map (fun e => e.teamId)).Perm
      (teams.map (fun t => t.id)) ∧
    (∀ e ∈ leaderboardData teams scores,
      e.totalPoints = teamTotal scores e.teamId) ∧
    (leaderboardData teams scores).Pairwise
      (fun a b => b.totalPoints ≤ a.totalPoints) ∧
    (∀ v : Int,
      ((leaderboardData teams scores).filter (fun e => e.totalPoints = v)).map
          (fun e => e.teamId) =
        (teams.filter (fun t => teamTotal scores t.id = v)).map
          (fun t => t.id)) ∧
    (∀ scores2 : List ScoreRec, scores2.Perm scores →
      (leaderboardData teams scores2).map entryKey =
        (leaderboardData teams scores).map entryKey) ∧
    leaderboardData teams scores = leaderboardData teams scores := by
  have hld : leaderboardData teams scores =
      sortByPointsDesc (teams.map (entryFor scores)) := by
    simp only [leaderboardData]
    rw [aggregate_eq_entryFor teams scores hnd]
  have hids : (teams.map (entryFor scores)).map (fun e => e.teamId) =
      teams.map (fun t => t.id) := by
    rw [List.map_map]
    rfl
  refine ⟨?_, ?_, ?_, ?_, ?_, rfl⟩
  · rw [hld]
    exact hids ▸ (sortByPointsDesc_perm _).map (fun e => e.teamId)
  · intro e he
    rw [hld] at he
    have hmem := (sortByPointsDesc_perm _).mem_iff.mp he
    obtain ⟨t, -, rfl⟩ := List.mem_map.mp hmem
    rfl
  · rw [hld]
    simp only [sortByPointsDesc]
    exact sortFold_pairwise _ [] (by simp)
  · intro v
    rw [hld]
    simp only [sortByPointsDesc]
    rw [sortFold_filter v _ [] (by simp), List.filter_nil, List.nil_append,
      filter_map_entryFor]
  · intro scores2 hperm
    have htot : ∀ tid, teamTotal scores2 tid = teamTotal scores tid := by
      intro tid
      exact List.Perm.sum_eq ((hperm.filter _).map _)
    have hld2 : leaderboardData teams scores2 =
        sortByPointsDesc (teams.map (entryFor scores2)) := by
      simp only [leaderboardData]
      rw [aggregate_eq_entryFor teams scores2 hnd]
    have hkeys : (teams.map (entryFor scores2)).map entryKey =
        (teams.map (entryFor scores)).map entryKey := by
      rw [List.map_map, List.map_map]
      apply List.map_congr_left
      intro t _
      simp [Function.comp, entryKey, entryFor, htot]
    rw [hld, hld2]
    simp only [sortByPointsDesc]
    exact sortFold_key_congr _ _ [] [] hkeys rfl

/-- Two equal-total score records, listed with `T2` first. -/
def lbScoreA : ScoreRec :=
  { eventId := "E1", subEventId := "S1", teamId := "T2", points := 5,
    assignedBy := "admin1", assignedAt := 1, subEventName := "Trivia",
    teamName := "Team 2" }

/-- The matching score for `T1`. -/
def lbScoreB : ScoreRec :=
  { eventId := "E1", subEventId := "S1", teamId := "T1", points := 5,
    assignedBy := "admin1", assignedAt := 2, subEventName := "Trivia",
    teamName := "Team 1" }

/-- Witness for the amended C7 on a concrete tie: one entry per team,
the tie at total 5 resolved in fetched team-list order, and score
reordering leaves the leaderboard content unchanged. -/
theorem leaderboard_contract_witness :
    ((leaderboardData [sampleTeam, sampleTeamTwo] [lbScoreA, lbScoreB]).map
        (fun e => e.teamId)).Perm
      ([sampleTeam, sampleTeamTwo].map (fun t => t.id)) ∧
    ((leaderboardData [sampleTeam, sampleTeamTwo] [lbScoreA, lbScoreB]).filter
        (fun e => e.totalPoints = 5)).map (fun e => e.teamId) =
      ([sampleTeam, sampleTeamTwo].filter
        (fun t => teamTotal [lbScoreA, lbScoreB] t.id = 5)).map
        (fun t => t.id) ∧
    (leaderboardData [sampleTeam, sampleTeamTwo] [lbScoreB, lbScoreA]).map
        entryKey =
      (leaderboardData [sampleTeam, sampleTeamTwo] [lbScoreA, lbScoreB]).map
        entryKey := by
  have h := leaderboard_contract [sampleTeam, sampleTeamTwo]
    [lbScoreA, lbScoreB] (by decide)
  exact ⟨h.1, h.2.2.2.1 5, h.2.2.2.2.1 [lbScoreB, lbScoreA] (by decide)⟩

end Eventor
